import Mathlib

/-!
Verification of the mnt-rs mount-table library (`src/mountinfo.rs`,
`src/error.rs`) against its natural-language specification.

The Rust code is shallowly embedded: `MountInfoEntry::from_str` becomes
`mountInfoFromStr`, the stream queries `get_submounts_from`,
`get_mount_from` and `get_mount_writable` become functions over a list of
input lines, and `Vec::remove_overlaps` becomes `removeOverlaps`.

Rust `PathBuf` values compare and nest by path components, so paths are
embedded as their component lists (`FsPath`), with the root directory
component written as the string slash, mirroring `std::path::Component`.

Rust panics (from `Option::unwrap` / `Result::unwrap`) are modelled by a
dedicated `ParseOutcome.panic` constructor, distinct from returned error
values, so that the difference between "returns `Err`" and "crashes" is
visible in the model.
-/

set_option autoImplicit false

namespace Mnt

/-- Result of running a piece of Rust code that may return a value, return
an error value, or panic. -/
inductive ParseOutcome (ε : Type) (α : Type) where
  | ok : α → ParseOutcome ε α
  | err : ε → ParseOutcome ε α
  | panic : ParseOutcome ε α
deriving DecidableEq

/-- True on whitespace characters removed by the leading/trailing trim of
the input line (ASCII whitespace suffices for mountinfo lines). -/
def isWspChar (c : Char) : Bool :=
  c == ' ' || c == '\t' || c == '\n' || c == '\r'

/-- True on the separator characters of the field tokenizer
(space and tab, as in the closure passed to `split_terminator`). -/
def isFieldSep (c : Char) : Bool :=
  c == ' ' || c == '\t'

/-- Remove leading and trailing whitespace, as `str::trim`. -/
def trimChars (l : List Char) : List Char :=
  ((l.dropWhile isWspChar).reverse.dropWhile isWspChar).reverse

/-- Split a character list at every separator, keeping empty pieces
(they are filtered away by the tokenizer afterwards). -/
def splitCharsOn (p : Char → Bool) : List Char → List (List Char)
  | [] => [[]]
  | c :: cs =>
    let r := splitCharsOn p cs
    if p c then [] :: r
    else
      match r with
      | t :: ts => (c :: t) :: ts
      | [] => [[c]]

/-- Tokenize one mountinfo line: trim, split on runs of space/tab, drop
empty tokens (`line.trim().split_terminator(...).filter(|s| s != &"")`). -/
def tokenize (s : String) : List String :=
  ((splitCharsOn isFieldSep (trimChars s.data)).filter (fun t => t ≠ [])).map
    (fun t => String.mk t)

/-- Split a character list at the first occurrence of `sep`:
`some (before, after)` when `sep` occurs, `none` otherwise. -/
def splitFirstChar (sep : Char) : List Char → Option (List Char × List Char)
  | [] => none
  | c :: cs =>
    if c == sep then some ([], cs)
    else (splitFirstChar sep cs).map (fun p => (c :: p.1, p.2))

/-- Rust `s.splitn(2, sep)` consumed as (first piece, optional rest):
the second component is `some` exactly when `sep` occurs in `s`. -/
def splitn2 (sep : Char) (s : String) : String × Option String :=
  match splitFirstChar sep s.data with
  | none => (s, none)
  | some p => (String.mk p.1, some (String.mk p.2))

/-- Rust `s.split_terminator(sep)`: split on `sep`, dropping only a final
empty piece produced by a trailing separator. -/
def splitTerm (sep : Char) (s : String) : List String :=
  let ps := splitCharsOn (fun c => c == sep) s.data
  (if ps.getLast? = some [] then ps.dropLast else ps).map (fun t => String.mk t)

/-- Numeric value of a decimal digit character, `none` on other characters. -/
def digitVal (c : Char) : Option Nat :=
  if c.isDigit then some (c.toNat - 48) else none

/-- Decimal value of a nonempty all-digit character list, `none` otherwise. -/
def parseNatDigits (l : List Char) : Option Nat :=
  match l with
  | [] => none
  | _ =>
    l.foldl
      (fun acc c =>
        match acc, digitVal c with
        | some n, some d => some (n * 10 + d)
        | _, _ => none)
      (some 0)

/-- Rust `str::parse::<u32>`: an optional leading plus sign, then at least
one decimal digit, value below 2^32; anything else fails. -/
def parseU32 (s : String) : Option Nat :=
  let cs :=
    match s.data with
    | '+' :: r => r
    | r => r
  match parseNatDigits cs with
  | some n => if n < 2 ^ 32 then some n else none
  | none => none

/-- Rust `str::parse::<i32>`: an optional sign, then at least one decimal
digit, value within the i32 range; anything else fails. -/
def parseI32 (s : String) : Option Int :=
  match s.data with
  | '+' :: r =>
    match parseNatDigits r with
    | some n => if n < 2 ^ 31 then some (Int.ofNat n) else none
    | none => none
  | '-' :: r =>
    match parseNatDigits r with
    | some n => if n ≤ 2 ^ 31 then some (-(Int.ofNat n)) else none
    | none => none
  | r =>
    match parseNatDigits r with
    | some n => if n < 2 ^ 31 then some (Int.ofNat n) else none
    | none => none

/-- A filesystem path as its Rust `std::path::Component` sequence: the
root directory component is the slash string, every other component is a
plain name. `Path` equality and `Path::starts_with` in the Rust code are
exactly equality and list-prefix on this representation. -/
abbrev FsPath := List String

/-- Component sequence of a path string, following Rust's
`Path::components`: empty pieces and interior dot pieces are dropped, an
absolute path starts with the root component, and a leading dot of a
relative path is kept. -/
def pathComponents (s : String) : FsPath :=
  let raw := (splitCharsOn (fun c => c == '/') s.data).filter (fun t => t ≠ [])
  let norm := (raw.filter (fun t => t ≠ ['.'])).map (fun t => String.mk t)
  if s.data.head? = some '/' then "/" :: norm
  else
    match raw with
    | ['.'] :: _ => "." :: norm
    | _ => norm

/-- The path `Path::new("/")` used for the fake-root test in
`remove_overlaps`. -/
def rootPath : FsPath := ["/"]

/-- Modelled from the spec: the crate's `MntOps` mount-option vocabulary
(spec sections 3 and 4.1). `mountinfo.rs` imports it via `use super::MntOps`
but its defining module is not among the provided sources; the variants
follow the spec's table (seven boolean-paired flags plus a catch-all) and
the constructor names used by the tests in `mountinfo.rs`. -/
inductive MntOps where
  | Atime : Bool → MntOps
  | DirAtime : Bool → MntOps
  | RelAtime : Bool → MntOps
  | Dev : Bool → MntOps
  | Exec : Bool → MntOps
  | Suid : Bool → MntOps
  | Write : Bool → MntOps
  | Extra : String → MntOps
deriving DecidableEq

/-- Modelled from the spec: parsing one mount-option token is total — known
tokens map by exact match to their variant and spelling (`rw`/`ro` for the
read-write flag, `x`/`nox` for the others), anything else becomes the
catch-all `Extra` carrying the token verbatim (spec section 4.1). -/
def MntOps.fromStr (s : String) : MntOps :=
  if s = "atime" then .Atime true
  else if s = "noatime" then .Atime false
  else if s = "diratime" then .DirAtime true
  else if s = "nodiratime" then .DirAtime false
  else if s = "relatime" then .RelAtime true
  else if s = "norelatime" then .RelAtime false
  else if s = "dev" then .Dev true
  else if s = "nodev" then .Dev false
  else if s = "exec" then .Exec true
  else if s = "noexec" then .Exec false
  else if s = "suid" then .Suid true
  else if s = "nosuid" then .Suid false
  else if s = "rw" then .Write true
  else if s = "ro" then .Write false
  else .Extra s

/-- The per-line error enumeration of `error.rs` (`LineError`). -/
inductive LineError where
  | MissingSpec
  | MissingFile
  | InvalidFilePath : String → LineError
  | InvalidFile : String → LineError
  | MissingVfstype
  | MissingMntops
  | MissingFreq
  | InvalidFreq : String → LineError
  | MissingPassno
  | InvalidPassno : String → LineError
  | MissingId
  | InvalidId : String → LineError
  | MissingParentId
  | InvalidParentId : String → LineError
  | MissingMajMin
  | InvalidMajMin : String → LineError
  | MissingRoot
  | InvalidRoot : String → LineError
  | MissingOptional
  | InvalidOptional : String → LineError
  | MissingSuperOptions
  | InvalidSuperOptions : String → LineError
deriving DecidableEq

/-- The `Display` rendering of `LineError` from `error.rs`. -/
def LineError.display : LineError → String
  | .MissingSpec => "Line parsing: Missing field: spec"
  | .MissingFile => "Line parsing: Missing field: file"
  | .InvalidFilePath f =>
      "Line parsing: Bad 'file' field value (not absolute path): " ++ f
  | .InvalidFile f => "Line parsing: Bad 'file' field value: " ++ f
  | .MissingVfstype => "Line parsing: Missing field: vfstype"
  | .MissingMntops => "Line parsing: Missing field: mntops"
  | .MissingFreq => "Line parsing: Missing field: freq"
  | .InvalidFreq f => "Line parsing: Bad 'dump' field value: " ++ f
  | .MissingPassno => "Line parsing: Missing field: passno"
  | .InvalidPassno f => "Line parsing: Bad 'passno' field value: " ++ f
  | .MissingId => "Line parsing: Missing field: id"
  | .InvalidId f => "Line parsing: Bad 'id' field value: " ++ f
  | .MissingParentId => "Line parsing: Missing field: parent id"
  | .InvalidParentId f => "Line parsing: Bad 'parent id' field value: " ++ f
  | .MissingMajMin => "Line parsing: Missing field: maj:min"
  | .InvalidMajMin f => "Line parsing: Bad 'maj:min' field value: " ++ f
  | .MissingRoot => "Line parsing: Missing field: root"
  | .InvalidRoot f => "Line parsing: Bad 'root' field value: " ++ f
  | .MissingOptional => "Line parsing: Missing field: optional"
  | .InvalidOptional f => "Line parsing: Bad 'optional' field value: " ++ f
  | .MissingSuperOptions => "Line parsing: Missing field: superoptions"
  | .InvalidSuperOptions f =>
      "Line parsing: Bad 'superoptions' field value: " ++ f

/-- The stream-level error of `error.rs` (`ParseError`): a message string. -/
structure ParseError where
  desc : String
deriving DecidableEq

/-- `ParseError::new` prefixes the detail message. -/
def ParseError.new (detail : String) : ParseError :=
  ⟨"Mount parsing: " ++ detail⟩

/-- The error built by the stream iterator when line number `nb` fails to
parse with line error `e`. -/
def parseErrorAtLine (nb : Nat) (e : LineError) : ParseError :=
  ParseError.new ("Failed at line " ++ Nat.repr nb ++ ": " ++ e.display)

/-- One parsed mount-table row (`MountInfoEntry` in `mountinfo.rs`); the
`HashMap` of optional fields is embedded as an association list with
unique keys, the `HashSet` of superblock options as a list without
duplicates. -/
structure MountInfoEntry where
  id : Int
  parent_id : Int
  major : Nat
  minor : Nat
  root : FsPath
  file : FsPath
  mntops : List MntOps
  optionals : List (String × Option String)
  vfstype : String
  spec : Option String
  super_options : List String
deriving DecidableEq

/-- `HashMap::insert`: overwrite the value when the key is present,
otherwise add the binding. -/
def insertOpt (l : List (String × Option String)) (k : String)
    (v : Option String) : List (String × Option String) :=
  if l.any (fun p => p.1 == k) then
    l.map (fun p => if p.1 == k then (k, v) else p)
  else l ++ [(k, v)]

/-- `HashMap::get`-style lookup in the optional-fields map. -/
def lookupOpt (l : List (String × Option String)) (k : String) :
    Option (Option String) :=
  (l.find? (fun p => p.1 == k)).map (fun p => p.2)

/-- One optional-field token split as the parser splits it: at the first
colon when a colon occurs (`(tag, Some(value))`), otherwise the whole
token with no value. -/
def splitOptTok (t : String) : String × Option String :=
  splitn2 ':' t

/-- `HashSet::collect` over strings, embedded as first-occurrence
deduplication. -/
def hashSetOfList (l : List String) : List String :=
  l.foldl (fun acc x => if acc.contains x then acc else acc ++ [x]) []

/-- The optional-fields loop of `MountInfoEntry::from_str`: consume tokens
into the map until the literal dash token; running out of tokens first is
`MissingOptional`. Returns the map and the remaining tokens. -/
def parseOptionals :
    List String → List (String × Option String) →
      ParseOutcome LineError (List (String × Option String) × List String)
  | [], _ => .err .MissingOptional
  | t :: rest, acc =>
    if t = "-" then .ok (acc, rest)
    else
      parseOptionals rest (insertOpt acc (splitOptTok t).1 (splitOptTok t).2)

/-- The optional-fields map produced by folding a list of tokens into an
accumulator, used to state what the loop computes. -/
def foldOpts (acc : List (String × Option String)) (opts : List String) :
    List (String × Option String) :=
  opts.foldl (fun a t => insertOpt a (splitOptTok t).1 (splitOptTok t).2) acc

/-- `MountInfoEntry::from_str` (`mountinfo.rs` lines 83-147). Each
`.parse().unwrap()` and the `splitn` unwraps of the major:minor token
panic on failure, which the embedding records as `.panic`. -/
def mountInfoFromStr (line : String) : ParseOutcome LineError MountInfoEntry :=
  match tokenize line with
  | [] => .err .MissingId
  | idTok :: ts1 =>
    match parseI32 idTok with
    | none => .panic
    | some id =>
      match ts1 with
      | [] => .err .MissingParentId
      | pidTok :: ts2 =>
        match parseI32 pidTok with
        | none => .panic
        | some parent_id =>
          match ts2 with
          | [] => .err .MissingMajMin
          | mmTok :: ts3 =>
            match splitFirstChar ':' mmTok.data with
            | none => .panic
            | some mm =>
              match parseU32 (String.mk mm.1), parseU32 (String.mk mm.2) with
              | some major, some minor =>
                match ts3 with
                | [] => .err .MissingRoot
                | rootTok :: ts4 =>
                  match ts4 with
                  | [] => .err .MissingFile
                  | fileTok :: ts5 =>
                    match ts5 with
                    | [] => .err .MissingMntops
                    | opsTok :: ts6 =>
                      match parseOptionals ts6 [] with
                      | .err e => .err e
                      | .panic => .panic
                      | .ok (optionals, ts7) =>
                        match ts7 with
                        | [] => .err .MissingVfstype
                        | vfsTok :: ts8 =>
                          match ts8 with
                          | [] => .err .MissingSpec
                          | specTok :: ts9 =>
                            match ts9 with
                            | [] => .err .MissingSuperOptions
                            | soTok :: _ =>
                              .ok
                                { id := id
                                  parent_id := parent_id
                                  major := major
                                  minor := minor
                                  root := pathComponents rootTok
                                  file := pathComponents fileTok
                                  mntops :=
                                    (splitTerm ',' opsTok).map MntOps.fromStr
                                  optionals := optionals
                                  vfstype := vfsTok
                                  spec :=
                                    if specTok = "none" then none
                                    else some specTok
                                  super_options :=
                                    hashSetOfList (splitTerm ',' soTok) }
              | _, _ => .panic

/-- `get_submounts_from` inner loop over the remaining lines, carrying the
0-based line number and the accumulated matching entries. -/
def getSubmountsFromAux (root : FsPath) :
    Nat → List String → List MountInfoEntry →
      ParseOutcome ParseError (List MountInfoEntry)
  | _, [], acc => .ok acc
  | nb, l :: rest, acc =>
    match mountInfoFromStr l with
    | .ok m =>
      getSubmountsFromAux root (nb + 1) rest
        (if root.isPrefixOf m.file then acc ++ [m] else acc)
    | .err e => .err (parseErrorAtLine nb e)
    | .panic => .panic

/-- `get_submounts_from(root, iter)` (`mountinfo.rs` lines 150-166) over
the list of input lines: keep every entry whose `file` starts with `root`
(component-wise), abort on the first line error. -/
def getSubmountsFrom (root : FsPath) (lines : List String) :
    ParseOutcome ParseError (List MountInfoEntry) :=
  getSubmountsFromAux root 0 lines []

/-- `get_mount_from` inner loop: overwrite the running answer on every
entry whose `file` is a component-prefix of the target. -/
def getMountFromAux (target : FsPath) :
    Nat → List String → Option MountInfoEntry →
      ParseOutcome ParseError (Option MountInfoEntry)
  | _, [], ret => .ok ret
  | nb, l :: rest, ret =>
    match mountInfoFromStr l with
    | .ok m =>
      getMountFromAux target (nb + 1) rest
        (if m.file.isPrefixOf target then some m else ret)
    | .err e => .err (parseErrorAtLine nb e)
    | .panic => .panic

/-- `get_mount_from(target, iter)` (`mountinfo.rs` lines 176-193) over the
list of input lines. -/
def getMountFrom (target : FsPath) (lines : List String) :
    ParseOutcome ParseError (Option MountInfoEntry) :=
  getMountFromAux target 0 lines none

/-- `get_mount_writable(target, writable)` (`mountinfo.rs` lines 205-218):
match on the point lookup, keep the entry when writability is not
requested or the read-write flag is on, collapse `Ok(None)` and `Err(_)`
to `None` through the wildcard arm; a panic inside the lookup propagates. -/
def getMountWritable (target : FsPath) (lines : List String)
    (writable : Bool) : ParseOutcome ParseError (Option MountInfoEntry) :=
  match getMountFrom target lines with
  | .ok (some m) =>
    if !writable || m.mntops.contains (MntOps.Write true) then .ok (some m)
    else .ok none
  | .panic => .panic
  | _ => .ok none

/-- The inner filter loop of `remove_overlaps`: the candidate `m` is
shadowed when some accumulated entry is not in the exclusion list and its
`file` is a component-prefix of the candidate's `file`. -/
def hasOverlapB (excl : List FsPath) (sorted : List MountInfoEntry)
    (m : MountInfoEntry) : Bool :=
  sorted.any (fun ms => !(excl.contains ms.file) && ms.file.isPrefixOf m.file)

/-- The outer loop of `remove_overlaps`, walking the input newest-first:
drop exact root mount points, drop shadowed candidates, append survivors
to the accumulator. -/
def removeOverlapsAux (excl : List FsPath) :
    List MountInfoEntry → List MountInfoEntry → List MountInfoEntry
  | sorted, [] => sorted
  | sorted, m :: rest =>
    if m.file = rootPath then removeOverlapsAux excl sorted rest
    else if hasOverlapB excl sorted m then removeOverlapsAux excl sorted rest
    else removeOverlapsAux excl (sorted ++ [m]) rest

/-- `Vec::<MountInfoEntry>::remove_overlaps` (`mountinfo.rs` lines
226-259): process in reverse chronological order, then reverse back. -/
def removeOverlaps (self : List MountInfoEntry)
    (exclude_files : List FsPath) : List MountInfoEntry :=
  (removeOverlapsAux exclude_files [] self.reverse).reverse

/-! Definitions used to state the claims. -/

/-- True on the `Missing*` variants of `LineError`, false on the
`Invalid*` variants. -/
def lineErrorIsMissing : LineError → Bool
  | .MissingSpec => true
  | .MissingFile => true
  | .MissingVfstype => true
  | .MissingMntops => true
  | .MissingFreq => true
  | .MissingPassno => true
  | .MissingId => true
  | .MissingParentId => true
  | .MissingMajMin => true
  | .MissingRoot => true
  | .MissingOptional => true
  | .MissingSuperOptions => true
  | _ => false

/-- True unless the outcome is an error value carrying an `Invalid*`
variant. -/
def errOnlyMissing {α : Type} : ParseOutcome LineError α → Bool
  | .err e => lineErrorIsMissing e
  | _ => true

/-- True exactly on returned (structured) error values, not on panics. -/
def isErrB {ε α : Type} : ParseOutcome ε α → Bool
  | .err _ => true
  | _ => false

/-- Every line of the stream parses into an entry. -/
def linesOkB (lines : List String) : Bool :=
  lines.all fun l =>
    match mountInfoFromStr l with
    | .ok _ => true
    | _ => false

/-- The entry of one line, when the line parses. -/
def parsedOk (l : String) : Option MountInfoEntry :=
  match mountInfoFromStr l with
  | .ok m => some m
  | _ => none

/-- The entries of the stream, in stream order. -/
def parsedEntries (lines : List String) : List MountInfoEntry :=
  lines.filterMap parsedOk

/-- The last entry of the stream whose `file` is a component-wise ancestor
of (or equal to) the target. -/
def lastMatch (target : FsPath) (lines : List String) :
    Option MountInfoEntry :=
  (parsedEntries lines).reverse.find? fun m => m.file.isPrefixOf target

/-- No token of the list is the optional-fields terminator. -/
def noDashB (ts : List String) : Bool :=
  ts.all fun t => !(t == "-")

/-- The value attached to the last optional-field token of the list whose
tag is `k`, when one exists. -/
def lastSplitVal (opts : List String) (k : String) : Option (Option String) :=
  (((opts.map splitOptTok).reverse).find? fun p => p.1 == k).map fun p => p.2

/-- The accumulator invariant of `removeOverlapsAux`: wherever the list
decomposes around an element, that element is not a root mount and is not
shadowed by the entries placed before it (on top of the prefix `pre`
already accumulated). -/
def Consistent (excl : List FsPath) (pre : List MountInfoEntry)
    (R : List MountInfoEntry) : Prop :=
  ∀ R1 m R2, R = R1 ++ m :: R2 →
    m.file ≠ rootPath ∧ hasOverlapB excl (pre ++ R1) m = false

/-! Concrete fixtures used by the example-based claims. -/

/-- A synthetic entry with the given id and mount point, used by the
overlap examples. -/
def mkEntry (i : Int) (f : String) : MountInfoEntry :=
  { id := i
    parent_id := 0
    major := 8
    minor := 1
    root := ["/"]
    file := pathComponents f
    mntops := [MntOps.Write true]
    optionals := []
    vfstype := "ext4"
    spec := none
    super_options := ["rw"] }

/-- The chronological list of the spec's overlap example: `/`, `/var`,
`/var/tmp`, then a later re-recorded `/var`. -/
def overlapExample : List MountInfoEntry :=
  [mkEntry 1 ("/"), mkEntry 2 ("/var"), mkEntry 3 ("/var/tmp"),
   mkEntry 4 ("/var")]

/-- A mountinfo line for the root mount. -/
def rootLine : String := "1 0 8:1 / / rw shared:1 - ext4 /dev/sda1 rw"

/-- A mountinfo line for a mount at the home directory. -/
def homeLine : String := "2 1 8:2 / /home rw shared:2 - ext4 /dev/sda2 rw"

/-- A mountinfo line for a read-only mount at the temporary directory. -/
def tmpRoLine : String := "3 1 8:3 / /tmp ro shared:3 - ext4 /dev/sda3 rw"

/-- A mountinfo line whose mount point shares a string prefix with the
var directory without being inside it. -/
def variantLine : String := "4 1 8:4 / /variant rw shared:4 - ext4 /dev/sda4 rw"

/-- A mountinfo line for a mount inside the var directory. -/
def varTmpLine : String := "5 1 8:5 / /var/tmp rw shared:5 - ext4 /dev/sda5 rw"

/-- A truncated mountinfo line: id and parent id only. -/
def truncLine : String := "1 0"

/-- A mountinfo line whose major:minor token has no colon; its numeric
split in `from_str` unwraps a missing second piece. -/
def badMajMinLine : String := "1 2 123 / /mnt rw shared:1 - ext4 /dev/sda1 rw"

/-- A mountinfo line whose id field is not numeric; its parse in
`from_str` unwraps a failed numeric conversion. -/
def badIdLine : String := "abc 2 1:2 / /mnt rw shared:1 - ext4 /dev/sda1 rw"

/-- The entry denoted by `rootLine`. -/
def entRootParsed : MountInfoEntry :=
  { id := 1
    parent_id := 0
    major := 8
    minor := 1
    root := ["/"]
    file := ["/"]
    mntops := [MntOps.Write true]
    optionals := [("shared", some ("1"))]
    vfstype := "ext4"
    spec := some ("/dev/sda1")
    super_options := ["rw"] }

/-- The entry denoted by `homeLine`. -/
def entHomeParsed : MountInfoEntry :=
  { id := 2
    parent_id := 1
    major := 8
    minor := 2
    root := ["/"]
    file := ["/", "home"]
    mntops := [MntOps.Write true]
    optionals := [("shared", some ("2"))]
    vfstype := "ext4"
    spec := some ("/dev/sda2")
    super_options := ["rw"] }

/-- The entry denoted by `tmpRoLine`. -/
def entTmpRoParsed : MountInfoEntry :=
  { id := 3
    parent_id := 1
    major := 8
    minor := 3
    root := ["/"]
    file := ["/", "tmp"]
    mntops := [MntOps.Write false]
    optionals := [("shared", some ("3"))]
    vfstype := "ext4"
    spec := some ("/dev/sda3")
    super_options := ["rw"] }

/-- The entry denoted by `varTmpLine`. -/
def entVarTmpParsed : MountInfoEntry :=
  { id := 5
    parent_id := 1
    major := 8
    minor := 5
    root := ["/"]
    file := ["/", "var", "tmp"]
    mntops := [MntOps.Write true]
    optionals := [("shared", some ("5"))]
    vfstype := "ext4"
    spec := some ("/dev/sda5")
    super_options := ["rw"] }

/-! Supporting lemmas. -/

theorem parseOptionals_err_eq (ts : List String) :
    ∀ (acc : List (String × Option String)) (e : LineError),
      parseOptionals ts acc = .err e → e = .MissingOptional := by
  induction ts with
  | nil =>
    intro acc e h
    simp only [parseOptionals] at h
    cases h
    rfl
  | cons t rest ih =>
    intro acc e h
    simp only [parseOptionals] at h
    split at h
    · cases h
    · exact ih _ _ h

theorem mountInfoFromStr_err_missing (line : String) :
    errOnlyMissing (mountInfoFromStr line) = true := by
  unfold mountInfoFromStr
  repeat' split <;> try rfl
  next e heq =>
    rw [parseOptionals_err_eq _ _ _ heq]
    rfl

theorem linesOkB_cons {l : String} {rest : List String}
    (h : linesOkB (l :: rest) = true) :
    (∃ m, mountInfoFromStr l = .ok m) ∧ linesOkB rest = true := by
  have h2 := h
  simp only [linesOkB, List.all_cons, Bool.and_eq_true] at h2
  refine ⟨?_, h2.2⟩
  cases hm : mountInfoFromStr l with
  | ok m => exact ⟨m, rfl⟩
  | err e => rw [hm] at h2; exact absurd h2.1 (by simp)
  | panic => rw [hm] at h2; exact absurd h2.1 (by simp)

theorem getSubmountsFromAux_ok (root : FsPath) (lines : List String) :
    ∀ (nb : Nat) (acc : List MountInfoEntry), linesOkB lines = true →
      getSubmountsFromAux root nb lines acc =
        .ok (acc ++
          (parsedEntries lines).filter fun m => root.isPrefixOf m.file) := by
  induction lines with
  | nil =>
    intro nb acc _
    simp [getSubmountsFromAux, parsedEntries]
  | cons l rest ih =>
    intro nb acc hok
    obtain ⟨⟨m, hm⟩, hrest⟩ := linesOkB_cons hok
    have hpe : parsedEntries (l :: rest) = m :: parsedEntries rest := by
      simp [parsedEntries, parsedOk, hm]
    simp only [getSubmountsFromAux, hm]
    rw [ih _ _ hrest, hpe, List.filter_cons]
    by_cases hp : root.isPrefixOf m.file = true
    · simp [hp]
    · simp only [Bool.not_eq_true] at hp
      simp [hp]

theorem getSubmountsFromAux_err (root : FsPath) (pre : List String) :
    ∀ (nb : Nat) (acc : List MountInfoEntry) (bad : String)
      (rest : List String) (e : LineError),
      linesOkB pre = true → mountInfoFromStr bad = .err e →
      getSubmountsFromAux root nb (pre ++ bad :: rest) acc =
        .err (parseErrorAtLine (nb + pre.length) e) := by
  induction pre with
  | nil =>
    intro nb acc bad rest e _ hbad
    simp [getSubmountsFromAux, hbad]
  | cons l pre2 ih =>
    intro nb acc bad rest e hok hbad
    obtain ⟨⟨m, hm⟩, hrest⟩ := linesOkB_cons hok
    simp only [List.cons_append, getSubmountsFromAux, hm]
    simp only [List.append_eq]
    rw [ih _ _ _ _ _ hrest hbad]
    congr 1
    simp [Nat.add_comm, Nat.add_assoc, Nat.add_left_comm, List.length_cons]

theorem getMountFromAux_ok (target : FsPath) (lines : List String) :
    ∀ (nb : Nat) (ret : Option MountInfoEntry), linesOkB lines = true →
      getMountFromAux target nb lines ret =
        .ok (match lastMatch target lines with
             | some m => some m
             | none => ret) := by
  induction lines with
  | nil =>
    intro nb ret _
    simp [getMountFromAux, lastMatch, parsedEntries]
  | cons l rest ih =>
    intro nb ret hok
    obtain ⟨⟨m, hm⟩, hrest⟩ := linesOkB_cons hok
    have hpe : parsedEntries (l :: rest) = m :: parsedEntries rest := by
      simp [parsedEntries, parsedOk, hm]
    have hlm : lastMatch target (l :: rest) =
        (lastMatch target rest).or
          (if m.file.isPrefixOf target = true then some m else none) := by
      simp [lastMatch, hpe, List.find?_append]
    simp only [getMountFromAux, hm]
    rw [ih _ _ hrest, hlm]
    cases hrm : lastMatch target rest with
    | some x => simp [Option.or]
    | none =>
      by_cases hp : m.file.isPrefixOf target = true
      · simp [Option.or, hp]
      · simp only [Bool.not_eq_true] at hp
        simp [Option.or, hp]

theorem removeOverlapsAux_spec (excl : List FsPath) (l : List MountInfoEntry) :
    ∀ acc, ∃ delta,
      removeOverlapsAux excl acc l = acc ++ delta ∧
      Consistent excl acc delta ∧
      delta.Sublist l ∧
      delta.all (fun m => !(m.file == rootPath)) = true := by
  induction l with
  | nil =>
    intro acc
    refine ⟨[], by simp [removeOverlapsAux], ?_, List.Sublist.refl _, by simp⟩
    intro R1 m R2 h
    exact absurd h (by simp)
  | cons m rest ih =>
    intro acc
    by_cases hroot : m.file = rootPath
    · obtain ⟨delta, h1, h2, h3, h4⟩ := ih acc
      exact ⟨delta, by simp [removeOverlapsAux, hroot, h1], h2,
        h3.cons m, h4⟩
    · by_cases hov : hasOverlapB excl acc m = true
      · obtain ⟨delta, h1, h2, h3, h4⟩ := ih acc
        refine ⟨delta, ?_, h2, h3.cons m, h4⟩
        simp [removeOverlapsAux, hroot, hov, h1]
      · simp only [Bool.not_eq_true] at hov
        obtain ⟨delta, h1, h2, h3, h4⟩ := ih (acc ++ [m])
        refine ⟨m :: delta, ?_, ?_, h3.cons₂ m, ?_⟩
        · rw [removeOverlapsAux]
          simp only [hroot, if_false, hov, Bool.false_eq_true, if_neg,
            ite_false]
          rw [h1]
          simp
        · intro R1 x R2 hdec
          cases R1 with
          | nil =>
            simp only [List.nil_append] at hdec
            cases hdec
            exact ⟨hroot, by simpa using hov⟩
          | cons y R1a =>
            simp only [List.cons_append] at hdec
            injection hdec with hy hd
            subst hy
            have hx := h2 R1a x R2 hd
            refine ⟨hx.1, ?_⟩
            have harr : acc ++ m :: R1a = (acc ++ [m]) ++ R1a := by simp
            rw [harr]
            exact hx.2
        · simp only [List.all_cons, Bool.and_eq_true]
          exact ⟨by simp [hroot], h4⟩

theorem removeOverlapsAux_of_consistent (excl : List FsPath)
    (R : List MountInfoEntry) :
    ∀ acc, Consistent excl acc R → removeOverlapsAux excl acc R = acc ++ R := by
  induction R with
  | nil =>
    intro acc _
    simp [removeOverlapsAux]
  | cons m rest ih =>
    intro acc hc
    have h0 := hc [] m rest rfl
    have hne : ¬(m.file = rootPath) := h0.1
    have hov : hasOverlapB excl acc m = false := by simpa using h0.2
    rw [removeOverlapsAux]
    simp only [hne, if_false, hov, Bool.false_eq_true, ite_false]
    have hc2 : Consistent excl (acc ++ [m]) rest := by
      intro R1 x R2 hdec
      have := hc (m :: R1) x R2 (by simp [hdec])
      refine ⟨this.1, ?_⟩
      have harr : (acc ++ [m]) ++ R1 = acc ++ m :: R1 := by simp
      rw [harr]
      exact this.2
    rw [ih _ hc2]
    simp

theorem lookupOpt_insertOpt (l : List (String × Option String))
    (k0 k : String) (v : Option String) :
    lookupOpt (insertOpt l k0 v) k =
      if k = k0 then some v else lookupOpt l k := by
  unfold insertOpt lookupOpt
  by_cases hany : (l.any fun p => p.1 == k0) = true
  · simp only [hany, if_true]
    rw [List.find?_map]
    by_cases hk : k = k0
    · subst hk
      have hfun : ((fun p : String × Option String => p.1 == k) ∘
          fun p => if p.1 == k then (k, v) else p) =
          fun p : String × Option String => p.1 == k := by
        funext p
        by_cases hp : (p.1 == k) = true
        · have hp1 : p.1 = k := by simpa using hp
          simp [hp1]
        · have hp1 : ¬(p.1 = k) := by simpa using hp
          simp [hp1]
      rw [hfun]
      obtain ⟨x, hx, hpx⟩ := List.any_eq_true.mp hany
      have hsome : (l.find? fun p => p.1 == k).isSome :=
        List.find?_isSome.mpr ⟨x, hx, hpx⟩
      obtain ⟨y, hy⟩ := Option.isSome_iff_exists.mp hsome
      have hyk := List.find?_some hy
      have hy1 : y.1 = k := by simpa using hyk
      rw [hy]
      simp [hy1]
    · have hk0 : (k0 == k) = false := by
        simp only [beq_eq_false_iff_ne, Ne]
        intro hcon
        exact hk hcon.symm
      have hfun : ((fun p : String × Option String => p.1 == k) ∘
          fun p => if p.1 == k0 then (k0, v) else p) =
          fun p : String × Option String => p.1 == k := by
        funext p
        by_cases hp : (p.1 == k0) = true
        · have hp1 : p.1 = k0 := by simpa using hp
          simp [hp1, hk0]
        · have hp1 : ¬(p.1 = k0) := by simpa using hp
          simp [hp1]
      rw [hfun, if_neg hk]
      cases hy : l.find? fun p => p.1 == k with
      | none => simp
      | some y =>
        have hyk := List.find?_some hy
        have hy1 : y.1 = k := by simpa using hyk
        have hyne : ¬(y.1 = k0) := by
          rw [hy1]
          intro hcon
          exact hk hcon
        simp [hyne]
  · simp only [Bool.not_eq_true] at hany
    simp only [hany, Bool.false_eq_true, if_false]
    rw [List.find?_append]
    have hnone0 : ∀ x, x ∈ l → ¬((fun p : String × Option String =>
        p.1 == k0) x = true) := by
      intro x hx
      have := List.any_eq_false.mp hany x hx
      simpa using this
    by_cases hk : k = k0
    · subst hk
      have hnone : (l.find? fun p => p.1 == k) = none :=
        List.find?_eq_none.mpr (hnone0)
      rw [hnone]
      simp [Option.or]
    · cases hy : l.find? fun p => p.1 == k with
      | some y => simp [Option.or, hk]
      | none =>
        have hk0 : (k0 == k) = false := by
          simp only [beq_eq_false_iff_ne, Ne]
          intro hcon
          exact hk hcon.symm
        simp [Option.or, hk, hk0]

theorem parseOptionals_noDash (ts : List String) :
    ∀ acc, noDashB ts = true →
      parseOptionals ts acc = .err .MissingOptional := by
  induction ts with
  | nil =>
    intro acc _
    rfl
  | cons t rest ih =>
    intro acc h
    simp only [noDashB, List.all_cons, Bool.and_eq_true] at h
    have ht : ¬(t = "-") := by simpa using h.1
    simp only [parseOptionals, ht, if_false]
    exact ih _ (by simpa [noDashB] using h.2)

theorem parseOptionals_terminator (opts : List String) :
    ∀ (rest : List String) (acc : List (String × Option String)),
      noDashB opts = true →
      parseOptionals (opts ++ "-" :: rest) acc =
        .ok (foldOpts acc opts, rest) := by
  induction opts with
  | nil =>
    intro rest acc _
    simp [parseOptionals, foldOpts]
  | cons t os ih =>
    intro rest acc h
    simp only [noDashB, List.all_cons, Bool.and_eq_true] at h
    have ht : ¬(t = "-") := by simpa using h.1
    simp only [List.cons_append, parseOptionals, ht, if_false]
    simp only [List.append_eq]
    rw [ih _ _ (by simpa [noDashB] using h.2)]
    rfl

theorem splitFirstChar_spec (sep : Char) (cs : List Char) :
    (sep ∈ cs → ∃ a b, cs = a ++ sep :: b ∧ sep ∉ a ∧
      splitFirstChar sep cs = some (a, b)) ∧
    (sep ∉ cs → splitFirstChar sep cs = none) := by
  induction cs with
  | nil =>
    refine ⟨fun h => absurd h ?_, fun _ => rfl⟩
    simp
  | cons c cs2 ih =>
    constructor
    · intro hmem
      by_cases hc : (c == sep) = true
      · have hce : c = sep := by simpa using hc
        subst hce
        exact ⟨[], cs2, rfl, by simp, by simp [splitFirstChar]⟩
      · have hcn : ¬(sep = c) := by
          intro hcon
          exact hc (by simp [hcon])
        have hmem2 : sep ∈ cs2 := by
          rcases List.mem_cons.mp hmem with h1 | h2
          · exact absurd h1 hcn
          · exact h2
        obtain ⟨a, b, h1, h2, h3⟩ := ih.1 hmem2
        refine ⟨c :: a, b, by simp [h1], ?_, ?_⟩
        · simp only [List.mem_cons, not_or]
          exact ⟨hcn, h2⟩
        · simp [splitFirstChar, hc, h3]
    · intro hmem
      have hc : (c == sep) = false := by
        simp only [beq_eq_false_iff_ne, Ne]
        intro hcon
        exact hmem (by simp [hcon])
      have hmem2 : sep ∉ cs2 := fun h => hmem (List.mem_cons_of_mem _ h)
      simp [splitFirstChar, hc, ih.2 hmem2]

theorem lookupOpt_foldOpts (opts : List String) :
    ∀ (acc : List (String × Option String)) (k : String),
      lookupOpt (foldOpts acc opts) k =
        match lastSplitVal opts k with
        | some v => some v
        | none => lookupOpt acc k := by
  induction opts with
  | nil =>
    intro acc k
    simp [foldOpts, lastSplitVal]
  | cons t os ih =>
    intro acc k
    have hfold : foldOpts acc (t :: os) =
        foldOpts (insertOpt acc (splitOptTok t).1 (splitOptTok t).2) os := rfl
    rw [hfold, ih]
    cases hfind : (os.map splitOptTok).reverse.find? fun p => p.1 == k with
    | some y =>
      have h1 : lastSplitVal os k = some y.2 := by
        simp [lastSplitVal, hfind]
      have h2 : lastSplitVal (t :: os) k = some y.2 := by
        simp [lastSplitVal, List.find?_append, hfind, Option.or]
      rw [h1, h2]
    | none =>
      have h1 : lastSplitVal os k = none := by
        simp [lastSplitVal, hfind]
      rw [h1, lookupOpt_insertOpt]
      by_cases hk : k = (splitOptTok t).1
      · have hbeq : ((splitOptTok t).1 == k) = true := by simp [hk]
        have h2 : lastSplitVal (t :: os) k = some (splitOptTok t).2 := by
          simp [lastSplitVal, List.find?_append, hfind, Option.or, hbeq]
        rw [h2]
        simp [hk]
      · have hbeq : ((splitOptTok t).1 == k) = false := by
          simp only [beq_eq_false_iff_ne, Ne]
          intro hcon
          exact hk hcon.symm
        have h2 : lastSplitVal (t :: os) k = none := by
          simp [lastSplitVal, List.find?_append, hfind, Option.or, hbeq]
        rw [h2]
        simp [hk]

/-! Claim theorems. -/

/-- C1: the claim says entry parsing is total and never panics, with
malformed numeric fields (such as the colon-less major:minor token)
reported as `Invalid*` error values carrying the raw text. The code
instead unwraps the failed conversions: on the colon-less major:minor
token and on a non-numeric id it panics, and no execution of the parser
ever returns an `Invalid*` variant — every returned error is a `Missing*`
variant, so the `Invalid*` constructors of `error.rs` are dead. -/
theorem from_str_panics_and_never_invalid :
    mountInfoFromStr badMajMinLine = ParseOutcome.panic ∧
    mountInfoFromStr badIdLine = ParseOutcome.panic ∧
    ∀ line, errOnlyMissing (mountInfoFromStr line) = true :=
  ⟨by rfl, by rfl, mountInfoFromStr_err_missing⟩

/-- C2: counterexample — on the chronological list `/`, `/var`,
`/var/tmp`, later `/var`, resolving overlaps with no exclusions does not
return the pair (`/var/tmp` entry, later `/var` entry). -/
theorem remove_overlaps_example_not_vartmp_and_var :
    (removeOverlaps overlapExample [] ==
      [mkEntry 3 ("/var/tmp"), mkEntry 4 ("/var")]) = false := by
  decide

/-- C2: amended — on the chronological list `/`, `/var`, `/var/tmp`,
later `/var`, resolving overlaps with no exclusions returns exactly the
later `/var` entry: the earlier `/var` and the `/var/tmp` entry are both
shadowed by the later `/var`, and the root entry is dropped. -/
theorem remove_overlaps_example_keeps_only_later_var :
    removeOverlaps overlapExample [] = [mkEntry 4 ("/var")] := by
  rfl

/-- C3: in the overlap filter, a non-root candidate is discarded exactly
when some accumulated entry shadows it, and an accumulated entry shadows
the candidate exactly when its path is not in the exclusion list and is a
component-prefix of the candidate's path — so exclusion removes an
accumulated entry as an obstruction but never by itself keeps a
candidate. -/
theorem remove_overlaps_exclusion_semantics (excl : List FsPath)
    (sorted : List MountInfoEntry) (m : MountInfoEntry)
    (rest : List MountInfoEntry) (hm : m.file ≠ rootPath) :
    (removeOverlapsAux excl sorted (m :: rest) =
      if hasOverlapB excl sorted m then removeOverlapsAux excl sorted rest
      else removeOverlapsAux excl (sorted ++ [m]) rest) ∧
    (hasOverlapB excl sorted m = true ↔
      ∃ ms, ms ∈ sorted ∧ ms.file ∉ excl ∧
        ms.file.isPrefixOf m.file = true) := by
  constructor
  · rw [removeOverlapsAux]
    simp [hm]
  · simp [hasOverlapB, List.any_eq_true, List.contains_iff_exists_mem_beq]

/-- C3 witness: the characterization applied to the concrete candidate
`/var/tmp` against the accumulated later `/var` entry under the exclusion
list containing `/var`. -/
theorem remove_overlaps_exclusion_semantics_witness :
    (removeOverlapsAux [pathComponents ("/var")] [mkEntry 4 ("/var")]
        (mkEntry 3 ("/var/tmp") :: []) =
      if hasOverlapB [pathComponents ("/var")] [mkEntry 4 ("/var")]
          (mkEntry 3 ("/var/tmp")) then
        removeOverlapsAux [pathComponents ("/var")] [mkEntry 4 ("/var")] []
      else
        removeOverlapsAux [pathComponents ("/var")]
          ([mkEntry 4 ("/var")] ++ [mkEntry 3 ("/var/tmp")]) []) ∧
    (hasOverlapB [pathComponents ("/var")] [mkEntry 4 ("/var")]
        (mkEntry 3 ("/var/tmp")) = true ↔
      ∃ ms, ms ∈ [mkEntry 4 ("/var")] ∧
        ms.file ∉ [pathComponents ("/var")] ∧
        ms.file.isPrefixOf (mkEntry 3 ("/var/tmp")).file = true) :=
  remove_overlaps_exclusion_semantics _ _ _ _ (by decide)

/-- C4: overlap resolution is idempotent — applied to its own output with
the same exclusion list it returns that output unchanged, for every input
list and every exclusion list. -/
theorem remove_overlaps_idempotent (self : List MountInfoEntry)
    (excl : List FsPath) :
    removeOverlaps (removeOverlaps self excl) excl =
      removeOverlaps self excl := by
  obtain ⟨delta, h1, h2, _, _⟩ := removeOverlapsAux_spec excl self.reverse []
  simp only [List.nil_append] at h1
  unfold removeOverlaps
  rw [h1, List.reverse_reverse]
  rw [removeOverlapsAux_of_consistent excl delta [] h2]
  simp

/-- C5: the output of overlap resolution is a subsequence of the input
(same entries, same chronological order, nothing duplicated or invented),
and no returned entry has the filesystem root as its mount point. -/
theorem remove_overlaps_sublist_and_no_root (self : List MountInfoEntry)
    (excl : List FsPath) :
    (removeOverlaps self excl).Sublist self ∧
      (removeOverlaps self excl).all
        (fun m => !(m.file == rootPath)) = true := by
  obtain ⟨delta, h1, _, h3, h4⟩ := removeOverlapsAux_spec excl self.reverse []
  simp only [List.nil_append] at h1
  unfold removeOverlaps
  rw [h1]
  constructor
  · have h5 := h3.reverse
    simpa using h5
  · simp only [List.all_eq_true] at h4 ⊢
    intro m hm
    exact h4 m (by simpa using hm)

/-- C6: when every line parses, the subtree query returns exactly the
entries whose mount point equals the root or is a component-wise
descendant of it, in stream order; and when the stream splits as
well-parsed lines, then a failing line, the query returns the error of
that first failing line (with its 0-based index) and no entry list. -/
theorem get_submounts_from_spec (root : FsPath) (lines : List String) :
    (linesOkB lines = true →
      getSubmountsFrom root lines =
        .ok ((parsedEntries lines).filter fun m => root.isPrefixOf m.file)) ∧
    (∀ pre bad rest e, lines = pre ++ bad :: rest → linesOkB pre = true →
      mountInfoFromStr bad = .err e →
      getSubmountsFrom root lines = .err (parseErrorAtLine pre.length e)) := by
  constructor
  · intro h
    have h1 := getSubmountsFromAux_ok root lines 0 [] h
    simpa [getSubmountsFrom] using h1
  · intro pre bad rest e hsplit hok hbad
    subst hsplit
    have h1 := getSubmountsFromAux_err root pre 0 [] bad rest e hok hbad
    simpa [getSubmountsFrom] using h1

/-- C6 witness: with root `/var`, a stream containing mounts at
`/variant` and `/var/tmp` yields only the `/var/tmp` entry (component
matching, not string-prefix matching), and a stream whose only line is
truncated yields the wrapped error of line 0. -/
theorem get_submounts_from_spec_witness :
    getSubmountsFrom (pathComponents ("/var")) [variantLine, varTmpLine] =
      .ok [entVarTmpParsed] ∧
    getSubmountsFrom (pathComponents ("/var")) [truncLine] =
      .err (parseErrorAtLine 0 LineError.MissingMajMin) := by
  constructor
  · have h := (get_submounts_from_spec (pathComponents ("/var"))
      [variantLine, varTmpLine]).1 (by decide)
    rw [h]
    decide
  · have h := (get_submounts_from_spec (pathComponents ("/var"))
      [truncLine]).2 [] truncLine [] LineError.MissingMajMin rfl
      (by decide) (by decide)
    simpa using h

/-- C7: when every line parses, the point lookup returns the last entry
in stream order whose mount point is a component-wise ancestor of (or
equal to) the target, and `none` when no entry matches; concretely, for
mounts at `/` then `/home`, the target `/home/alice` resolves to the
`/home` entry and the target `/etc` resolves to the `/` entry. -/
theorem get_mount_from_last_match :
    (∀ (target : FsPath) (lines : List String), linesOkB lines = true →
      getMountFrom target lines = .ok (lastMatch target lines)) ∧
    getMountFrom (pathComponents ("/home/alice")) [rootLine, homeLine] =
      .ok (some entHomeParsed) ∧
    getMountFrom (pathComponents ("/etc")) [rootLine, homeLine] =
      .ok (some entRootParsed) := by
  refine ⟨?_, by decide, by decide⟩
  intro target lines h
  have h1 := getMountFromAux_ok target lines 0 none h
  rw [getMountFrom, h1]
  cases lastMatch target lines <;> rfl

/-- C7 witness: the general last-match property applied to the two-line
stream of the root and home mounts with target inside home. -/
theorem get_mount_from_last_match_witness :
    getMountFrom (pathComponents ("/home/alice")) [rootLine, homeLine] =
      .ok (lastMatch (pathComponents ("/home/alice"))
        [rootLine, homeLine]) :=
  get_mount_from_last_match.1 _ _ (by decide)

/-- C8: the writability wrapper never returns a structured error value:
a parse error in the lookup or a lookup with no match collapses to no
answer; a found entry is returned unconditionally when writability is not
requested, and exactly when its option list contains the read-write flag
in its on form when writability is requested. -/
theorem get_mount_writable_spec (target : FsPath) (lines : List String)
    (writable : Bool) :
    isErrB (getMountWritable target lines writable) = false ∧
    (∀ e, getMountFrom target lines = .err e →
      getMountWritable target lines writable = .ok none) ∧
    (getMountFrom target lines = .ok none →
      getMountWritable target lines writable = .ok none) ∧
    (∀ m, getMountFrom target lines = .ok (some m) → writable = false →
      getMountWritable target lines writable = .ok (some m)) ∧
    (∀ m, getMountFrom target lines = .ok (some m) → writable = true →
      getMountWritable target lines writable =
        .ok (if m.mntops.contains (MntOps.Write true) then some m
             else none)) := by
  cases h : getMountFrom target lines with
  | ok o =>
    cases o with
    | none =>
      have hred : getMountWritable target lines writable = .ok none := by
        simp [getMountWritable, h]
      refine ⟨by simp [hred, isErrB], ?_, fun _ => hred, ?_, ?_⟩
      · intro e he
        cases he
      · intro x hx _
        injection hx with hx1
        cases hx1
      · intro x hx _
        injection hx with hx1
        cases hx1
    | some m =>
      have hred : getMountWritable target lines writable =
          if !writable || m.mntops.contains (MntOps.Write true) then
            .ok (some m)
          else .ok none := by
        simp [getMountWritable, h]
      refine ⟨?_, ?_, ?_, ?_, ?_⟩
      · rw [hred]
        split <;> rfl
      · intro e he
        cases he
      · intro hx
        injection hx with hx1
        cases hx1
      · intro x hx hw
        injection hx with hx1
        injection hx1 with hx2
        subst hx2
        rw [hred, hw]
        rfl
      · intro x hx hw
        injection hx with hx1
        injection hx1 with hx2
        subst hx2
        rw [hred, hw]
        simp only [Bool.not_true, Bool.false_or]
        split <;> rfl
  | err e0 =>
    have hred : getMountWritable target lines writable = .ok none := by
      simp [getMountWritable, h]
    refine ⟨by simp [hred, isErrB], fun e _ => hred, ?_, ?_, ?_⟩
    · intro hx
      cases hx
    · intro x hx _
      cases hx
    · intro x hx _
      cases hx
  | panic =>
    have hred : getMountWritable target lines writable = .panic := by
      simp [getMountWritable, h]
    refine ⟨by simp [hred, isErrB], ?_, ?_, ?_, ?_⟩
    · intro e he
      cases he
    · intro hx
      cases hx
    · intro x hx _
      cases hx
    · intro x hx _
      cases hx

/-- C8 witness: the wrapper applied to a read-only mount with and without
writability requested, and to an erroring stream. -/
theorem get_mount_writable_spec_witness :
    getMountWritable (pathComponents ("/tmp/x")) [tmpRoLine] true =
      .ok none ∧
    getMountWritable (pathComponents ("/tmp/x")) [tmpRoLine] false =
      .ok (some entTmpRoParsed) ∧
    getMountWritable (pathComponents ("/etc")) [truncLine] true =
      .ok none := by
    refine ⟨?_, ?_, ?_⟩
    · have h := (get_mount_writable_spec (pathComponents ("/tmp/x"))
        [tmpRoLine] true).2.2.2.2 entTmpRoParsed (by decide) rfl
      rw [h]
      decide
    · exact (get_mount_writable_spec (pathComponents ("/tmp/x"))
        [tmpRoLine] false).2.2.2.1 entTmpRoParsed (by decide) rfl
    · exact (get_mount_writable_spec (pathComponents ("/etc"))
        [truncLine] true).2.1 (parseErrorAtLine 0 LineError.MissingMajMin)
        (by decide)

/-- C9: the optional-fields loop consumes tokens up to the literal dash
into the map (failing with MissingOptional when the input runs out with
no dash seen); a token is split at its first colon into tag and value
when a colon occurs and becomes a valueless tag otherwise; and the map
built from the loop gives each tag the value of its last occurrence. -/
theorem parse_optionals_spec (opts rest : List String)
    (acc : List (String × Option String)) (k : String) (t : String) :
    (noDashB opts = true →
      parseOptionals (opts ++ "-" :: rest) acc =
        .ok (foldOpts acc opts, rest)) ∧
    (noDashB opts = true →
      parseOptionals opts acc = .err .MissingOptional) ∧
    (lookupOpt (foldOpts [] opts) k = lastSplitVal opts k) ∧
    ((':') ∈ t.data → ∃ a b, t.data = a ++ (':') :: b ∧ (':') ∉ a ∧
      splitOptTok t = (String.mk a, some (String.mk b))) ∧
    ((':') ∉ t.data → splitOptTok t = (t, none)) := by
  refine ⟨parseOptionals_terminator opts rest acc,
    parseOptionals_noDash opts acc, ?_, ?_, ?_⟩
  · rw [lookupOpt_foldOpts]
    cases lastSplitVal opts k with
    | some v => rfl
    | none => rfl
  · intro hmem
    obtain ⟨a, b, h1, h2, h3⟩ := (splitFirstChar_spec (':') t.data).1 hmem
    exact ⟨a, b, h1, h2, by simp [splitOptTok, splitn2, h3]⟩
  · intro hmem
    simp [splitOptTok, splitn2, (splitFirstChar_spec (':') t.data).2 hmem]

/-- C9 witness: the loop applied to a token list with a duplicated tag, a
valueless tag, and a dash terminator; the duplicated tag keeps its last
value. -/
theorem parse_optionals_spec_witness :
    parseOptionals ["shared:2", "shared:4", "flag", "-", "ext4"] [] =
      .ok ([("shared", some ("4")), ("flag", none)], ["ext4"]) ∧
    lookupOpt (foldOpts [] ["shared:2", "shared:4", "flag"]) ("shared") =
      some (some ("4")) := by
  constructor
  · have h := (parse_optionals_spec ["shared:2", "shared:4", "flag"]
      ["ext4"] [] ("shared") ("x")).1 (by decide)
    exact h.trans (by decide)
  · have h := (parse_optionals_spec ["shared:2", "shared:4", "flag"]
      [] [] ("shared") ("x")).2.2.1
    rw [h]
    decide

/-- C10: the ancestor test of the point lookup works on path components,
not raw string prefixes: with only a mount at `/home` in the stream, the
lookup for `/homestead` finds nothing. -/
theorem get_mount_from_component_matching :
    getMountFrom (pathComponents ("/homestead")) [homeLine] =
      ParseOutcome.ok none := by
  decide

end Mnt
